import Mathlib

/-!
Verification development for the backup/restore subsystem of the repository
(`BackupService`): full and critical snapshot creation, snapshot validation,
restore with per-table error isolation, and retention-based pruning.

The definitions below are a shallow embedding of `BackupService`
(`createFullBackup`, `createCriticalBackup`, `restoreFromBackup`,
`listAvailableBackups`, `cleanupOldBackups`, `validateBackup`).  The
relational store is modelled as a per-table row list, the snapshot directory
as an association list of files, and the fallible external calls (table
export, table clear, table upsert, file unlink) as explicit outcome
parameters (`Env`, `uf`).  Stateful code is modelled by explicit state
passing; code that can throw is modelled with `Except`, with the `catch`
blocks of the source made explicit.
-/

namespace BackupModel

/-- A database row: a stable identifier (the `id` column used by
`upsert(..., \x7b onConflict: 'id' \x7d)` and by `.neq('id', 0)`) plus an opaque
serialized rest-of-row payload. -/
structure Row where
  id : Int
  payload : String
deriving DecidableEq, Repr

/-- The list of `id` values of a row list. -/
def rowIds (l : List Row) : List Int := l.map (fun r => r.id)

/-- A JSON value stored under a table key in the `data` section of a parsed
snapshot.  `arr` is an array of rows (the shape the builder writes); `nonArr`
stands for any truthy non-array JSON value (exercised by the validator's
"data is not an array" check). -/
inductive TableVal where
  | arr (rows : List Row)
  | nonArr (tag : String)
deriving DecidableEq, Repr

/-- First-match association-list lookup, modelling JS object property access
`obj[key]` (`none` models `undefined`). -/
def lookupA {α : Type} : List (String × α) → String → Option α
  | [], _ => none
  | (k', v) :: rest, k => if k' = k then some v else lookupA rest k

/-- JS object property assignment `obj[key] = v`: replaces the binding if the
key exists, otherwise appends it. -/
def assocSet {α : Type} : List (String × α) → String → α → List (String × α)
  | [], k, v => [(k, v)]
  | (k', v') :: rest, k, v =>
      if k' = k then (k, v) :: rest else (k', v') :: assocSet rest k v

/-- Serialization of one row, standing in for its JSON rendering inside
`JSON.stringify` of a row array. -/
def serializeRow (r : Row) : String :=
  "(" ++ toString r.id ++ ":" ++ r.payload ++ ")"

/-- Canonical serialization of a row array, modelling
`JSON.stringify(tableData)`: order-preserving and deterministic. -/
def serializeRows (rows : List Row) : String :=
  "[" ++ String.intercalate "," (rows.map serializeRow) ++ "]"

/-- Models `createHash('sha256').update(s).digest('hex')`.  A deterministic
(and injective) digest stands in for SHA-256: the development only ever uses
determinism of the digest, never any property of the concrete hash values. -/
def sha256Hex (s : String) : String := "sha256:" ++ s

/-- Parsed `metadata` section of a snapshot file.  Each field is optional
because a parsed JSON document can lack it; for `tables`, `none` also covers
a non-array value (the source treats "missing" and "not an array" the same
way in every place `metadata.tables` is used). -/
structure RawMetadata where
  timestamp : Option String
  version : Option String
  tables : Option (List String)
  recordCount : Option (List (String × Nat))
  checksums : Option (List (String × String))
  description : Option String
deriving DecidableEq, Repr

/-- A parsed snapshot document (`BackupData` in the source); `metadata` and
`data` can each be absent in a hand-crafted or corrupted file. -/
structure RawBackup where
  metadata : Option RawMetadata
  data : Option (List (String × TableVal))
deriving DecidableEq, Repr

/-- Contents of one file of the snapshot directory: either a document that
parses as JSON, or bytes on which `JSON.parse` throws. -/
inductive FileData where
  | json (b : RawBackup)
  | junk (s : String)
deriving DecidableEq, Repr

/-- The durable file store, keyed by full path, in directory-listing order. -/
abbrev FS := List (String × FileData)

/-- `fs.readFile`: `none` models the ENOENT throw. -/
def readFile (fs : FS) (p : String) : Option FileData := lookupA fs p

/-- `fs.writeFile`: overwrites the file if the path exists, creates it
otherwise. -/
def writeFile (fs : FS) (p : String) (d : FileData) : FS := assocSet fs p d

/-- `fs.unlink`. -/
def fsRemove (fs : FS) (p : String) : FS := fs.filter (fun e => e.1 ≠ p)

/-- The live relational store: rows of each table, by table name. -/
abbrev DB := String → List Row

/-- Writing one table of the store. -/
def dbSet (db : DB) (t : String) (rows : List Row) : DB :=
  fun t' => if t' = t then rows else db t'

/-- One row of a supabase `upsert(tableData, \x7b onConflict: 'id' \x7d)` batch:
a row whose `id` already exists overwrites that row in place, otherwise the
row is appended. -/
def upsertOne (l : List Row) (r : Row) : List Row :=
  if r.id ∈ rowIds l then l.map (fun x => if x.id = r.id then r else x)
  else l ++ [r]

/-- A whole upsert batch, applied row by row in order. -/
def upsertRows : List Row → List Row → List Row
  | l, [] => l
  | l, r :: rest => upsertRows (upsertOne l r) rest

/-- Effect of `supabase.from(table).delete().neq('id', 0)` on a table's rows:
every row whose `id` differs from `0` is deleted, so exactly the rows with
`id = 0` survive. -/
def clearNeqZero (l : List Row) : List Row := l.filter (fun r => r.id = 0)

/-- Outcomes of the fallible relational-store calls for a run: whether a
table's `select('*')` export succeeds, and the error (if any) returned by the
clear and upsert calls on a table.  Row data itself always comes from the
modelled store. -/
structure Env where
  exportOk : String → Bool
  clearErr : String → Option String
  upsertErr : String → Option String

/-- Service configuration (`BackupService.config`). -/
structure Config where
  backupDirectory : String
  maxBackupCount : Nat
  version : String
deriving DecidableEq, Repr

/-- The tables targeted by a full backup (`BACKUP_TABLES`). -/
def BACKUP_TABLES : List String :=
  ["conversation_histories", "api_usage", "bot_settings", "api_logs",
   "system_logs", "env_variables", "bot_status"]

/-- The tables targeted by a critical backup (`CRITICAL_TABLES`). -/
def CRITICAL_TABLES : List String :=
  ["conversation_histories", "bot_settings", "env_variables"]

/-- Rendering of the run's timestamp, modelling
`new Date().toISOString().replace(/:/g, '-').replace(/\..+/, '')` applied to
the time value `now`: an abstract nonempty textual form of `now`. -/
def formatTimestamp (now : Nat) : String := "T" ++ Nat.repr now

/-- The export loop shared by `createFullBackup` and `createCriticalBackup`:
for each table in order, run the exporter; on error the table is skipped
(`continue`), on success the table's current rows are kept. -/
def exportTables (tables : List String) (env : Env) (db : DB) :
    List (String × List Row) :=
  match tables with
  | [] => []
  | t :: rest =>
      if env.exportOk t then (t, db t) :: exportTables rest env db
      else exportTables rest env db

/-- The in-memory snapshot document assembled by the backup loop: the
`tables` field of the metadata is set up front to the whole requested table
list, while `recordCount`, `checksums` and `data` receive one entry per
successfully exported table, in export order. -/
def backupSnapshot (tables : List String) (cfg : Config) (env : Env) (db : DB)
    (now : Nat) (desc : Option String) : RawBackup :=
  let ex := exportTables tables env db
  { metadata := some
      { timestamp := some (formatTimestamp now)
        version := some cfg.version
        tables := some tables
        recordCount := some (ex.map (fun e => (e.1, e.2.length)))
        checksums := some (ex.map (fun e => (e.1, sha256Hex (serializeRows e.2))))
        description := desc }
    data := some (ex.map (fun e => (e.1, TableVal.arr e.2))) }

/-- Path of the file written by a full backup run
(`path.join(backupDirectory, backup_timestamp.json)`). -/
def fullBackupPath (cfg : Config) (now : Nat) : String :=
  cfg.backupDirectory ++ "/backup_" ++ formatTimestamp now ++ ".json"

/-- Path of the file written by a critical backup run. -/
def criticalBackupPath (cfg : Config) (now : Nat) : String :=
  cfg.backupDirectory ++ "/critical_backup_" ++ formatTimestamp now ++ ".json"

/-- One enumerated snapshot of `listAvailableBackups`: the file's path plus
the parsed document's `metadata` field. -/
structure BackupEntry where
  path : String
  metadata : Option RawMetadata
deriving DecidableEq, Repr

/-- Time value of `new Date(s)` coerced through `.getTime()`: `none` models
NaN (an Invalid Date).  The ECMAScript Date Time String Format requires
colon separators in the time part (`YYYY-MM-DDTHH:MM:SS`); the timestamps
this service writes have had their colons replaced by dashes
(`YYYY-MM-DDTHH-mm-ss`, part_005:91), so they fail the format — and Node's
fallback parser too — and parse as Invalid Date.  The model accepts the two
ISO shapes relevant here (date-only and full date-time with colons), giving
them a chronologically ordered code, and maps every other string, in
particular every timestamp this program writes, to NaN.  (Engine-specific
fallback parsing of still other shapes is outside the region the claims
exercise.) -/
def jsDateTime (s : String) : Option Nat :=
  match s.data with
  | [y1, y2, y3, y4, '-', mo1, mo2, '-', d1, d2] =>
      if ([y1, y2, y3, y4, mo1, mo2, d1, d2].all Char.isDigit) then
        some (([y1, y2, y3, y4, mo1, mo2, d1, d2].foldl
          (fun n c => n * 10 + (c.toNat - 48)) 0) * 1000000)
      else none
  | [y1, y2, y3, y4, '-', mo1, mo2, '-', d1, d2, 'T',
     h1, h2, ':', mi1, mi2, ':', s1, s2] =>
      if ([y1, y2, y3, y4, mo1, mo2, d1, d2, h1, h2, mi1, mi2, s1, s2].all
          Char.isDigit) then
        some ([y1, y2, y3, y4, mo1, mo2, d1, d2, h1, h2, mi1, mi2, s1, s2].foldl
          (fun n c => n * 10 + (c.toNat - 48)) 0)
      else none
  | _ => none

/-- Time value `new Date(e.metadata.timestamp).getTime()` of an enumerated
snapshot; `none` is NaN (missing timestamp gives `new Date(undefined)`,
also Invalid).  When `e.metadata` itself is `undefined` the comparator
throws instead of computing a value — `listAvailableBackups` models that
throw separately. -/
def entryTime (e : BackupEntry) : Option Nat :=
  match e.metadata with
  | some md =>
      match md.timestamp with
      | some s => jsDateTime s
      | none => none
  | none => none

/-- The sort comparator `new Date(b...).getTime() - new Date(a...).getTime()`
after the SortCompare coercion of ECMAScript, which turns a NaN comparator
result into `+0`: whenever either time value is NaN the pair compares as
equal, so such pairs are never reordered by the (stable) sort. -/
def jsCmp (a b : BackupEntry) : Int :=
  match entryTime a, entryTime b with
  | some ta, some tb => (tb : Int) - (ta : Int)
  | _, _ => 0

/-- The non-strict order induced by the comparator (`a` may stay before
`b`). -/
def jsLe (a b : BackupEntry) : Prop := jsCmp a b ≤ 0

instance : DecidableRel jsLe := fun a b => Int.decLe (jsCmp a b) 0

/-- String suffix test on the underlying character list (used for the
`file.endsWith('.json')` filter). -/
def strEndsWith (s suf : String) : Bool := List.isSuffixOf suf.data s.data

/-- String prefix test on the underlying character list. -/
def strStartsWith (s pre : String) : Bool := List.isPrefixOf pre.data s.data

/-- Whether a full path denotes a file of the backup directory (the model of
`fs.readdir(backupDirectory)` membership). -/
def inDir (cfg : Config) (p : String) : Bool :=
  strStartsWith p (cfg.backupDirectory ++ "/")

/-- The `.json`-named files of the backup directory (the
`files.filter(file => file.endsWith('.json'))` step over `fs.readdir`). -/
def backupFilesOf (cfg : Config) (fs : FS) : FS :=
  fs.filter (fun e => inDir cfg e.1 && strEndsWith e.1 ".json")

/-- Parsing one enumerated file: a parse failure is caught (the file is
skipped), a parsed document contributes its path and `metadata` field. -/
def parseEntry (e : String × FileData) : Option BackupEntry :=
  match e.2 with
  | FileData.json raw => some { path := e.1, metadata := raw.metadata }
  | FileData.junk _ => none

/-- The enumeration loop of `listAvailableBackups`, before sorting. -/
def enumerateBackups (cfg : Config) (fs : FS) : List BackupEntry :=
  (backupFilesOf cfg fs).filterMap parseEntry

/-- `listAvailableBackups`: enumerate the `.json` files of the backup
directory, skip those whose contents fail to parse (their read error is
caught and logged), then sort with the `getTime()` comparator.  With two or
more entries every entry takes part in at least one comparison, so if any
parsed document lacks its `metadata` the comparator's `b.metadata.timestamp`
read throws, the outer catch fires, and the function returns `[]`; with at
most one entry the comparator never runs.  Otherwise the sort is the stable
JS sort under the NaN-coerced comparator: entries whose timestamps do not
parse — all timestamps this program writes — compare as equal and keep
their enumeration (readdir) order, so the intended newest-first ordering
does not actually happen. -/
def listAvailableBackups (cfg : Config) (fs : FS) : List BackupEntry :=
  let entries := enumerateBackups cfg fs
  if entries.length ≤ 1 then entries
  else if entries.all (fun e => e.metadata.isSome) then
    List.insertionSort jsLe entries
  else []

/-- Whether a path carries the full-snapshot naming scheme
(`backup_<timestamp>.json` inside the backup directory). -/
def isFullSnapName (cfg : Config) (p : String) : Bool :=
  strStartsWith p (cfg.backupDirectory ++ "/backup_")

/-- Whether a path carries the critical-snapshot naming scheme
(`critical_backup_<timestamp>.json` inside the backup directory). -/
def isCriticalSnapName (cfg : Config) (p : String) : Bool :=
  strStartsWith p (cfg.backupDirectory ++ "/critical_backup_")

/-- `cleanupOldBackups`: when more snapshots exist than `maxBackupCount`,
delete everything after position `maxBackupCount` of the newest-first list;
an unlink failure (`uf p = true`) on one file is caught and logged and the
loop continues with the remaining files. -/
def cleanupOldBackups (cfg : Config) (fs : FS) (uf : String → Bool) : FS :=
  let backups := listAvailableBackups cfg fs
  if backups.length > cfg.maxBackupCount then
    (backups.drop cfg.maxBackupCount).foldl
      (fun acc b => if uf b.path then acc else fsRemove acc b.path) fs
  else fs

/-- `createFullBackup`: export `BACKUP_TABLES`, write the snapshot file, then
prune old backups; returns the written path and the updated file store. -/
def createFullBackup (cfg : Config) (env : Env) (db : DB) (fs : FS)
    (now : Nat) (desc : Option String) (uf : String → Bool) : String × FS :=
  let snap := backupSnapshot BACKUP_TABLES cfg env db now desc
  let p := fullBackupPath cfg now
  let fs1 := writeFile fs p (FileData.json snap)
  (p, cleanupOldBackups cfg fs1 uf)

/-- `createCriticalBackup`: export `CRITICAL_TABLES` and write the snapshot
file; unlike the full variant it performs no retention pruning. -/
def createCriticalBackup (cfg : Config) (env : Env) (db : DB) (fs : FS)
    (now : Nat) (desc : Option String) : String × FS :=
  let snap := backupSnapshot CRITICAL_TABLES cfg env db now desc
  let p := criticalBackupPath cfg now
  (p, writeFile fs p (FileData.json snap))

/-! ### Snapshot validation (`validateBackup`) -/

/-- Message of a property access on `undefined` (a JS `TypeError`); its exact
text is runtime-defined, the model fixes one representative. -/
def undefinedAccessError : String := "Cannot read properties of undefined"

/-- Result shape of `validateBackup`'s outer `catch` block. -/
def validationErrorResult (e : String) : Bool × List String :=
  (false, ["バックアップの検証中にエラーが発生しました: " ++ e])

/-- JS truthiness test on a possibly missing string field: `undefined` and
the empty string are falsy. -/
def strFalsy : Option String → Bool
  | none => true
  | some s => s.isEmpty

/-- The validator's `!metadata.tables || !Array.isArray(metadata.tables) ||
metadata.tables.length === 0` test (`none` covers missing and non-array). -/
def tablesBad : Option (List String) → Bool
  | none => true
  | some l => l.isEmpty

/-- Rendering of a possibly-`undefined` number inside the record-count
mismatch message. -/
def optNatRender : Option Nat → String
  | none => "undefined"
  | some n => Nat.repr n

/-- The record-count mismatch message for one table. -/
def countMismatchMsg (t : String) (meta : Option Nat) (actual : Nat) : String :=
  "テーブル " ++ t ++ " のレコード数が一致しません（メタデータ: "
    ++ optNatRender meta ++ ", 実際: " ++ Nat.repr actual ++ "）"

/-- The checksum mismatch message for one table. -/
def checksumMismatchMsg (t : String) : String :=
  "テーブル " ++ t ++ " のチェックサムが一致しません"

/-- Record-count check of the validation loop for one table:
`metadata.recordCount && metadata.recordCount[table] !== tableData.length`
(a missing per-table entry is `undefined`, which differs from any length,
but a missing `recordCount` object skips the check entirely). -/
def recordCountIssues (md : RawMetadata) (t : String) (rows : List Row) :
    List String :=
  match md.recordCount with
  | none => []
  | some rc =>
      if lookupA rc t = some rows.length then []
      else [countMismatchMsg t (lookupA rc t) rows.length]

/-- Checksum check of the validation loop for one table: performed only when
`metadata.checksums` exists and has a truthy entry for the table. -/
def checksumIssues (md : RawMetadata) (t : String) (rows : List Row) :
    List String :=
  match md.checksums with
  | none => []
  | some cs =>
      match lookupA cs t with
      | none => []
      | some c =>
          if c = "" then []
          else if sha256Hex (serializeRows rows) = c then []
          else [checksumMismatchMsg t]

/-- One iteration of the validation loop: data presence, array shape, then
record count and checksum. -/
def tableIssues (md : RawMetadata) (dm : List (String × TableVal))
    (t : String) : List String :=
  match lookupA dm t with
  | none => ["テーブル " ++ t ++ " のデータがありません"]
  | some (TableVal.nonArr _) => ["テーブル " ++ t ++ " のデータが配列ではありません"]
  | some (TableVal.arr rows) => recordCountIssues md t rows ++ checksumIssues md t rows

/-- Validation of a parsed snapshot document.  Mirrors the source control
flow: missing `metadata` pushes an issue but the very next statement reads
`metadata.timestamp` on `undefined`, so the run is aborted by the thrown
`TypeError` and the collected issues are replaced by the generic catch
message; likewise reading `backupData.data[table]` throws when `data` is
missing and the table loop runs at least once. -/
def validateParsed (raw : RawBackup) : Bool × List String :=
  let base := (if raw.metadata.isNone then ["バックアップファイルにメタデータがありません"] else [])
           ++ (if raw.data.isNone then ["バックアップファイルにデータがありません"] else [])
  match raw.metadata with
  | none => validationErrorResult undefinedAccessError
  | some md =>
      let base2 := base
        ++ (if strFalsy md.timestamp then ["タイムスタンプが見つかりません"] else [])
        ++ (if strFalsy md.version then ["バージョン情報が見つかりません"] else [])
        ++ (if tablesBad md.tables then ["テーブル情報が見つからないか無効です"] else [])
      match md.tables with
      | none => (base2.isEmpty, base2)
      | some tables =>
          match raw.data with
          | none =>
              if tables.isEmpty then (base2.isEmpty, base2)
              else validationErrorResult undefinedAccessError
          | some dm =>
              let all := base2 ++ tables.flatMap (tableIssues md dm)
              (all.isEmpty, all)

/-- `validateBackup`: read the file (an unreadable path lands in the outer
catch), parse it (a parse failure has its own early return), then validate
the parsed document. -/
def validateBackup (fs : FS) (path : String) : Bool × List String :=
  match readFile fs path with
  | none => validationErrorResult "ENOENT: no such file or directory"
  | some (FileData.junk _) => (false, ["バックアップファイルのJSON解析に失敗しました"])
  | some (FileData.json raw) => validateParsed raw

/-! ### Restore (`restoreFromBackup`) -/

/-- Options accepted by `restoreFromBackup`. -/
structure RestoreOptions where
  clearBeforeRestore : Bool := false
  onlyTables : Option (List String) := none
  skipTables : Option (List String) := none
deriving DecidableEq, Repr

/-- The `details` record of the restore result: either the aggregated report
of a run that reached the table loop, or the shape produced by the outer
catch block. -/
inductive RestoreDetails where
  | report (tablesRestored recordsRestored : Nat)
      (errors : List (String × String)) (preRestoreBackupPath : String)
  | fatal (error : String)
deriving DecidableEq, Repr

/-- Value returned by `restoreFromBackup`. -/
structure RestoreResult where
  success : Bool
  details : RestoreDetails
deriving DecidableEq, Repr

/-- Mutable state of the restore loop: the three aggregates of
`restoreDetails` plus the evolving store. -/
structure RestoreAcc where
  tablesRestored : Nat
  recordsRestored : Nat
  errors : List (String × String)
  db : DB

/-- Import phase of one table: a store-reported upsert error is recorded and
the table skipped, otherwise the batch is applied and the aggregates grow.
`none` for `rows?` models a truthy non-array `tableData` that slipped past
the emptiness guard: the store rejects the malformed batch. -/
def restoreUpsert (env : Env) (acc : RestoreAcc) (t : String)
    (rows? : Option (List Row)) : RestoreAcc :=
  match rows? with
  | none =>
      { acc with errors := assocSet acc.errors t ("挿入エラー: " ++ "malformed rows") }
  | some rows =>
      match env.upsertErr t with
      | some m => { acc with errors := assocSet acc.errors t ("挿入エラー: " ++ m) }
      | none =>
          { acc with
            db := dbSet acc.db t (upsertRows (acc.db t) rows)
            tablesRestored := acc.tablesRestored + 1
            recordsRestored := acc.recordsRestored + rows.length }

/-- Optional clear phase of one table: when `clearBeforeRestore` is set, run
`delete().neq('id', 0)`; a clear error is recorded and the table is skipped
for import, otherwise import follows. -/
def restoreClearThen (env : Env) (opts : RestoreOptions) (acc : RestoreAcc)
    (t : String) (rows? : Option (List Row)) : RestoreAcc :=
  if opts.clearBeforeRestore then
    match env.clearErr t with
    | some m => { acc with errors := assocSet acc.errors t ("クリアエラー: " ++ m) }
    | none =>
        restoreUpsert env
          { acc with db := dbSet acc.db t (clearNeqZero (acc.db t)) } t rows?
  else restoreUpsert env acc t rows?

/-- One iteration of the restore loop.  Reading `backupData.data[table]` when
the `data` section is missing throws inside the per-table `try`, which the
per-table catch converts into an exception-message error; missing or empty
table data is recorded and skipped. -/
def restoreTable (env : Env) (dataSec : Option (List (String × TableVal)))
    (opts : RestoreOptions) (acc : RestoreAcc) (t : String) : RestoreAcc :=
  match dataSec with
  | none => { acc with errors := assocSet acc.errors t ("例外: " ++ undefinedAccessError) }
  | some dm =>
      match lookupA dm t with
      | none => { acc with errors := assocSet acc.errors t "データがありません" }
      | some (TableVal.arr []) =>
          { acc with errors := assocSet acc.errors t "データがありません" }
      | some (TableVal.arr (r :: rest)) =>
          restoreClearThen env opts acc t (some (r :: rest))
      | some (TableVal.nonArr _) => restoreClearThen env opts acc t none

/-- The table worklist: `metadata.tables` filtered by `onlyTables`
(intersection, when given and nonempty) and `skipTables` (exclusion, when
given and nonempty). -/
def restoreWorklist (allTables : List String) (opts : RestoreOptions) :
    List String :=
  let t1 := match opts.onlyTables with
    | some only => if only.isEmpty then allTables
                   else allTables.filter (fun t => only.contains t)
    | none => allTables
  match opts.skipTables with
  | some skip => if skip.isEmpty then t1
                 else t1.filter (fun t => !skip.contains t)
  | none => t1

/-- The body of `restoreFromBackup`'s outer `try` block.  `Except.error`
models an exception escaping the body: an unreadable path, a
`JSON.parse` failure, or a `TypeError` from reading fields of a document
without `metadata` (thrown before the safety-net backup, at the version
check) or without `metadata.tables` (thrown after it).  The error carries
the store and file state at the moment of the throw. -/
def restoreAttempt (cfg : Config) (env : Env) (db : DB) (fs : FS)
    (path : String) (opts : RestoreOptions) (now : Nat) (uf : String → Bool) :
    Except (String × DB × FS) (RestoreResult × DB × FS) :=
  match readFile fs path with
  | none => Except.error ("ENOENT: no such file or directory", db, fs)
  | some (FileData.junk _) => Except.error ("Unexpected token in JSON", db, fs)
  | some (FileData.json raw) =>
      match raw.metadata with
      | none => Except.error (undefinedAccessError, db, fs)
      | some md =>
          let pre := fullBackupPath cfg now
          let fs1 := (createFullBackup cfg env db fs now
            (some "リストア前の自動バックアップ") uf).2
          match md.tables with
          | none => Except.error (undefinedAccessError, db, fs1)
          | some allTables =>
              let acc0 : RestoreAcc := ⟨0, 0, [], db⟩
              let acc := (restoreWorklist allTables opts).foldl
                (restoreTable env raw.data opts) acc0
              let succ := decide (0 < acc.tablesRestored) && acc.errors.isEmpty
              Except.ok
                ({ success := succ
                   details := RestoreDetails.report acc.tablesRestored
                     acc.recordsRestored acc.errors pre }, acc.db, fs1)

/-- `restoreFromBackup`: the outer `try/catch`.  Any exception thrown by the
body is caught and converted into a normal return value with
`success = false` and an error detail — the function never rethrows. -/
def restoreFromBackup (cfg : Config) (env : Env) (db : DB) (fs : FS)
    (path : String) (opts : RestoreOptions) (now : Nat) (uf : String → Bool) :
    RestoreResult × DB × FS :=
  match restoreAttempt cfg env db fs path opts now uf with
  | Except.ok r => r
  | Except.error (e, db', fs') =>
      ({ success := false, details := RestoreDetails.fatal e }, db', fs')

/-! ### Analysis views of the restore loop (derived from the definitions
above, used to reason about the loop's effect on the store) -/

/-- For a restore run without `clearBeforeRestore`: the upsert batch a table
receives, if its iteration reaches a successful upsert (`none` when the
iteration records an error or skips).  Derived by reading off the branches
of `restoreTable`; note no branch depends on the accumulated state. -/
def tableAction (env : Env) (dataSec : Option (List (String × TableVal)))
    (t : String) : Option (List Row) :=
  match dataSec with
  | none => none
  | some dm =>
      match lookupA dm t with
      | none => none
      | some (TableVal.arr []) => none
      | some (TableVal.arr (r :: rest)) =>
          match env.upsertErr t with
          | some _ => none
          | none => some (r :: rest)
      | some (TableVal.nonArr _) => none

/-- Effect of one (no-clear) loop iteration for table `t` on that table's
rows. -/
def applyT (env : Env) (dataSec : Option (List (String × TableVal)))
    (t : String) (l : List Row) : List Row :=
  match tableAction env dataSec t with
  | some rows => upsertRows l rows
  | none => l

/-- Number of occurrences of a table name in a worklist. -/
def occCount (ws : List String) (t : String) : Nat :=
  (ws.filter (fun w => w = t)).length

/-! ### Concrete fixtures used by witnesses and counterexamples -/

/-- Unlink never fails. -/
def noFail : String → Bool := fun _ => false

/-- Every store call succeeds. -/
def envOK : Env := ⟨fun _ => true, fun _ => none, fun _ => none⟩

/-- The default configuration of the service. -/
def cfgD : Config := ⟨"backups", 10, "1.0"⟩

/-- An empty store. -/
def dbEmpty : DB := fun _ => []

/-- A parsed snapshot whose `metadata` section is missing. -/
def rawNoMeta : RawBackup := { metadata := none, data := some [] }

/-- A directory holding only the metadata-less snapshot. -/
def fsNoMeta : FS := [("backups/x.json", FileData.json rawNoMeta)]

/-- Metadata carrying several defects at once: no timestamp, no version, a
record count for `t1` that disagrees with the data, no record count for
`t2`, and a wrong checksum for `t2`. -/
def mdMulti : RawMetadata :=
  ⟨none, none, some ["t1", "t2", "t3", "t4"], some [("t1", 5)],
   some [("t2", "bogus")], none⟩

/-- A snapshot exhibiting one instance of every per-table defect besides the
metadata-level ones of `mdMulti`: `t3` has no data and `t4`'s data is not an
array. -/
def rawMulti : RawBackup :=
  { metadata := some mdMulti
    data := some [("t1", TableVal.arr [⟨1, "a"⟩]),
                  ("t2", TableVal.arr [⟨2, "b"⟩]),
                  ("t4", TableVal.nonArr "x")] }

/-- Metadata without any `checksums` mapping. -/
def mdNoCs : RawMetadata :=
  ⟨some "T1", some "1.0", some ["a"], some [("a", 1)], none, none⟩

/-- A well-formed snapshot that carries no checksums at all. -/
def rawNoCs : RawBackup :=
  { metadata := some mdNoCs
    data := some [("a", TableVal.arr [⟨1, "x"⟩])] }

/-- Store outcomes where only the export of `api_usage` fails. -/
def envC1 : Env := ⟨fun t => !(t == "api_usage"), fun _ => none, fun _ => none⟩

/-- Store outcomes where only the export of `conversation_histories`
fails. -/
def envC3 : Env :=
  ⟨fun t => !(t == "conversation_histories"), fun _ => none, fun _ => none⟩

/-- A directory holding one readable, parseable, well-formed snapshot. -/
def fsSnapA : FS := [("snap.json", FileData.json rawNoCs)]

/-- A store whose `bot_settings` table holds a row with `id = 0` (and one
with `id = 1`). -/
def dbC4 : DB :=
  fun t => if t = "bot_settings" then [⟨0, "stale"⟩, ⟨1, "old"⟩] else []

/-- A snapshot restoring a single fresh `bot_settings` row. -/
def rawC4 : RawBackup :=
  { metadata := some ⟨some "T1", some "1.0", some ["bot_settings"],
      some [("bot_settings", 1)], none, none⟩
    data := some [("bot_settings", TableVal.arr [⟨5, "new"⟩])] }

/-- A directory holding the `rawC4` snapshot. -/
def fsC4 : FS := [("snap.json", FileData.json rawC4)]

/-- A directory holding one file that fails to parse as JSON. -/
def fsJunk : FS := [("bad.json", FileData.junk "not json")]

/-- Default configuration with a retention window of 3. -/
def cfg3 : Config := ⟨"backups", 3, "1.0"⟩

/-- Default configuration with a retention window of 1. -/
def cfg1 : Config := ⟨"backups", 1, "1.0"⟩

/-- Minimal metadata with a given timestamp. -/
def mdTs (s : String) : RawMetadata :=
  ⟨some s, some "1.0", some ["a"], none, none, none⟩

/-- A directory of five full snapshots with timestamps T1 (oldest) to T5
(newest), in shuffled directory order. -/
def fs5 : FS :=
  [("backups/backup_T3.json", FileData.json { metadata := some (mdTs "T3"), data := some [] }),
   ("backups/backup_T1.json", FileData.json { metadata := some (mdTs "T1"), data := some [] }),
   ("backups/backup_T5.json", FileData.json { metadata := some (mdTs "T5"), data := some [] }),
   ("backups/backup_T2.json", FileData.json { metadata := some (mdTs "T2"), data := some [] }),
   ("backups/backup_T4.json", FileData.json { metadata := some (mdTs "T4"), data := some [] })]

/-- A directory holding a newer full snapshot and an older critical
snapshot. -/
def fsC8 : FS :=
  [("backups/backup_T2.json", FileData.json { metadata := some (mdTs "T2"), data := some [] }),
   ("backups/critical_backup_T1.json",
    FileData.json { metadata := some (mdTs "T1"), data := some [] })]

end BackupModel

namespace BackupModel

/-! ### General lemmas -/

theorem append_ne_empty_left (x y : String) (h : x.data ≠ []) : x ++ y ≠ "" := by
  intro he
  apply h
  have hd := congrArg String.data he
  rw [String.data_append] at hd
  exact (List.append_eq_nil.mp hd).1

theorem lookupA_map_self {α : Type} (f : String → α) :
    ∀ (l : List String) (t : String), t ∈ l →
      lookupA (l.map (fun x => (x, f x))) t = some (f t) := by
  intro l
  induction l with
  | nil => intro t ht; cases ht
  | cons k rest ih =>
      intro t ht
      by_cases hk : k = t
      · subst hk; simp [lookupA]
      · have : t ∈ rest := by
          cases ht with
          | head => exact absurd rfl hk
          | tail _ h => exact h
        simp [lookupA, hk, ih t this]

theorem lookupA_map_pair {α β : Type} (f : String → α) (g : α → β)
    (l : List String) (t : String) (ht : t ∈ l) :
    lookupA ((l.map (fun x => (x, f x))).map (fun e => (e.1, g e.2))) t
      = some (g (f t)) := by
  have h2 : (l.map (fun x => (x, f x))).map (fun e => (e.1, g e.2))
      = l.map (fun x => (x, g (f x))) := by
    rw [List.map_map]
    rfl
  rw [h2]
  exact lookupA_map_self (fun x => g (f x)) l t ht

theorem flatMap_eq_nil_of_forall {α β : Type} (g : α → List β) :
    ∀ l : List α, (∀ t ∈ l, g t = []) → l.flatMap g = [] := by
  intro l
  induction l with
  | nil => intro _; rfl
  | cons x rest ih =>
      intro h
      have hx : g x = [] := h x (List.mem_cons_self x rest)
      have hr := ih (fun t ht => h t (List.mem_cons_of_mem x ht))
      simp [List.flatMap_cons, hx, hr]

theorem strFalsy_some (s : String) (h : s ≠ "") : strFalsy (some s) = false := by
  have hb : s.isEmpty = false := by
    cases hb : s.isEmpty with
    | false => rfl
    | true => exact absurd ((String.isEmpty_iff s).mp hb) h
  simpa [strFalsy] using hb

theorem formatTimestamp_ne_empty (now : Nat) : formatTimestamp now ≠ "" :=
  append_ne_empty_left "T" (Nat.repr now) (by decide)

theorem sha256Hex_ne_empty (s : String) : sha256Hex s ≠ "" :=
  append_ne_empty_left "sha256:" s (by decide)

/-- When every export succeeds, the backup loop keeps every table, in order,
with its current rows. -/
theorem exportTables_all_ok (env : Env) (db : DB) :
    ∀ tables : List String, (∀ t ∈ tables, env.exportOk t = true) →
      exportTables tables env db = tables.map (fun t => (t, db t)) := by
  intro tables
  induction tables with
  | nil => intro _; rfl
  | cons t rest ih =>
      intro h
      have ht : env.exportOk t = true := h t (List.mem_cons_self t rest)
      have hr := ih (fun x hx => h x (List.mem_cons_of_mem t hx))
      simp [exportTables, ht, hr]

/-- A parsed snapshot with both sections present, truthy timestamp and
version, a nonempty table list, and a clean table loop validates cleanly. -/
theorem validateParsed_ok (md : RawMetadata) (dm : List (String × TableVal))
    (tl : List String)
    (hts : strFalsy md.timestamp = false) (hvs : strFalsy md.version = false)
    (htables : md.tables = some tl) (htb : tl ≠ [])
    (hloop : ∀ t ∈ tl, tableIssues md dm t = []) :
    validateParsed { metadata := some md, data := some dm } = (true, []) := by
  have hbad : tablesBad (some tl) = false := by
    have : tl.isEmpty = false := by
      cases hx : tl.isEmpty with
      | false => rfl
      | true => exact absurd (List.isEmpty_iff.mp hx) htb
    simpa [tablesBad] using this
  have hall : tl.flatMap (tableIssues md dm) = [] :=
    flatMap_eq_nil_of_forall _ tl hloop
  unfold validateParsed
  dsimp only
  rw [htables]
  simp [hts, hvs, hbad, hall]

/-- Core round-trip fact: a snapshot whose exports all succeeded validates
cleanly (nonempty table set and nonempty version string assumed, as in the
shipped configuration). -/
theorem validateParsed_backupSnapshot (tables : List String) (cfg : Config)
    (env : Env) (db : DB) (now : Nat) (desc : Option String)
    (hne : tables ≠ []) (hver : cfg.version ≠ "")
    (hok : ∀ t ∈ tables, env.exportOk t = true) :
    validateParsed (backupSnapshot tables cfg env db now desc) = (true, []) := by
  have hex := exportTables_all_ok env db tables hok
  simp only [backupSnapshot, hex]
  apply validateParsed_ok _ _ tables
  · exact strFalsy_some _ (formatTimestamp_ne_empty now)
  · exact strFalsy_some _ hver
  · rfl
  · exact hne
  · intro t ht
    unfold tableIssues
    simp only [lookupA_map_pair (fun t => db t) TableVal.arr tables t ht]
    simp only [recordCountIssues, checksumIssues,
      lookupA_map_pair (fun t => db t) (fun r => r.length) tables t ht,
      lookupA_map_pair (fun t => db t) (fun r => sha256Hex (serializeRows r)) tables t ht]
    simp [sha256Hex_ne_empty]

end BackupModel

namespace BackupModel

/-! ### C1: partial-failure isolation in the snapshot builder -/

/-- C1 (counterexample): running the full-backup builder while the export of
`api_usage` fails produces a written snapshot whose `data` section has no
entry for `api_usage`, yet whose `metadata.tables` still lists
`api_usage` — the claim that the failed table is excluded from
`metadata.tables` is false on the code. -/
theorem c1_counterexample :
    (∃ raw : RawBackup,
      readFile (createFullBackup cfgD envC1 dbEmpty [] 5 none noFail).2
          (createFullBackup cfgD envC1 dbEmpty [] 5 none noFail).1
        = some (FileData.json raw) ∧
      (raw.metadata.map (fun md => md.tables)) = some (some BACKUP_TABLES) ∧
      (raw.data.map (fun dm => lookupA dm "api_usage")) = some none) ∧
    "api_usage" ∈ BACKUP_TABLES := by
  refine ⟨⟨backupSnapshot BACKUP_TABLES cfgD envC1 dbEmpty 5 none, ?_, ?_, ?_⟩, ?_⟩
  · rfl
  · rfl
  · rfl
  · decide

/-- C1 (amended): when table `b`'s export fails while `a`'s and `c`'s
succeed during `build([a, b, c])`, the snapshot contains `a`'s and `c`'s row
data, row counts and checksums but none for `b`; however `metadata.tables`
still lists all three requested tables, including `b` (the source sets
`tables` up front and never filters it on export failure). -/
theorem c1_partial_failure_amended (a b c : String) (cfg : Config) (env : Env)
    (db : DB) (now : Nat) (desc : Option String)
    (ha : env.exportOk a = true) (hb : env.exportOk b = false)
    (hc : env.exportOk c = true) (hba : b ≠ a) (hbc : b ≠ c) (hac : a ≠ c) :
    ∃ md dm rc cs,
      (backupSnapshot [a, b, c] cfg env db now desc).metadata = some md ∧
      (backupSnapshot [a, b, c] cfg env db now desc).data = some dm ∧
      md.recordCount = some rc ∧ md.checksums = some cs ∧
      lookupA dm a = some (TableVal.arr (db a)) ∧
      lookupA dm c = some (TableVal.arr (db c)) ∧
      lookupA dm b = none ∧
      lookupA rc a = some (db a).length ∧
      lookupA rc c = some (db c).length ∧
      lookupA rc b = none ∧
      lookupA cs a = some (sha256Hex (serializeRows (db a))) ∧
      lookupA cs c = some (sha256Hex (serializeRows (db c))) ∧
      lookupA cs b = none ∧
      md.tables = some [a, b, c] ∧ b ∈ [a, b, c] := by
  have hex : exportTables [a, b, c] env db = [(a, db a), (c, db c)] := by
    simp [exportTables, ha, hb, hc]
  have hab : a ≠ b := fun h => hba h.symm
  have hcb : c ≠ b := fun h => hbc h.symm
  refine ⟨{ timestamp := some (formatTimestamp now), version := some cfg.version,
            tables := some [a, b, c],
            recordCount := some [(a, (db a).length), (c, (db c).length)],
            checksums := some [(a, sha256Hex (serializeRows (db a))),
                               (c, sha256Hex (serializeRows (db c)))],
            description := desc },
          [(a, TableVal.arr (db a)), (c, TableVal.arr (db c))],
          [(a, (db a).length), (c, (db c).length)],
          [(a, sha256Hex (serializeRows (db a))),
           (c, sha256Hex (serializeRows (db c)))],
          ?_, ?_, rfl, rfl, ?_, ?_, ?_, ?_, ?_, ?_, ?_, ?_, ?_, rfl, ?_⟩
  · unfold backupSnapshot; rw [hex]; rfl
  · unfold backupSnapshot; rw [hex]; rfl
  · simp [lookupA]
  · simp [lookupA, hac]
  · simp [lookupA, hab, hcb]
  · simp [lookupA]
  · simp [lookupA, hac]
  · simp [lookupA, hab, hcb]
  · simp [lookupA]
  · simp [lookupA, hac]
  · simp [lookupA, hab, hcb]
  · simp

/-- C1 (witness for the amended theorem) at tables `A`, `B`, `C` with `B`'s
export failing. -/
theorem c1_partial_failure_amended_witness :
    ∃ md dm rc cs,
      (backupSnapshot ["A", "B", "C"] cfgD
          ⟨fun t => !(t == "B"), fun _ => none, fun _ => none⟩ dbEmpty 1 none).metadata
        = some md ∧
      (backupSnapshot ["A", "B", "C"] cfgD
          ⟨fun t => !(t == "B"), fun _ => none, fun _ => none⟩ dbEmpty 1 none).data
        = some dm ∧
      md.recordCount = some rc ∧ md.checksums = some cs ∧
      lookupA dm "A" = some (TableVal.arr (dbEmpty "A")) ∧
      lookupA dm "C" = some (TableVal.arr (dbEmpty "C")) ∧
      lookupA dm "B" = none ∧
      lookupA rc "A" = some (dbEmpty "A").length ∧
      lookupA rc "C" = some (dbEmpty "C").length ∧
      lookupA rc "B" = none ∧
      lookupA cs "A" = some (sha256Hex (serializeRows (dbEmpty "A"))) ∧
      lookupA cs "C" = some (sha256Hex (serializeRows (dbEmpty "C"))) ∧
      lookupA cs "B" = none ∧
      md.tables = some ["A", "B", "C"] ∧ "B" ∈ ["A", "B", "C"] :=
  c1_partial_failure_amended "A" "B" "C" cfgD
    ⟨fun t => !(t == "B"), fun _ => none, fun _ => none⟩ dbEmpty 1 none
    (by decide) (by decide) (by decide) (by decide) (by decide) (by decide)

/-! ### C9: defect collection in the validator -/

/-- C9 (counterexample): on a JSON-parseable snapshot without a `metadata`
section, the validator does not collect the missing-metadata defect: the
read of `metadata.timestamp` throws, and the outer catch replaces all
collected issues by the single generic message. -/
theorem c9_counterexample :
    validateBackup fsNoMeta "backups/x.json"
      = (false, ["バックアップの検証中にエラーが発生しました: " ++ undefinedAccessError]) ∧
    "バックアップファイルにメタデータがありません" ∉ (validateBackup fsNoMeta "backups/x.json").2 := by
  constructor
  · rfl
  · decide

/-- C9 (amended): `valid` is true iff `issues` is empty for every input, and
on snapshots whose `metadata` and `data` sections are both present the
validator collects every applicable defect in one pass (illustrated by a
snapshot exhibiting a missing timestamp, a missing version, a row-count
mismatch, a missing per-table row count, a checksum mismatch, missing table
data and non-array table data all at once); when `metadata` is absent (or
`data` is absent with a nonempty table list) a thrown property access aborts
the pass with the single generic issue instead. -/
theorem c9_validate_amended :
    (∀ (fs : FS) (path : String),
      (validateBackup fs path).1 = true ↔ (validateBackup fs path).2 = []) ∧
    validateParsed rawMulti = (false,
      ["タイムスタンプが見つかりません",
       "バージョン情報が見つかりません",
       countMismatchMsg "t1" (some 5) 1,
       countMismatchMsg "t2" none 1,
       checksumMismatchMsg "t2",
       "テーブル t3 のデータがありません",
       "テーブル t4 のデータが配列ではありません"]) := by
  constructor
  · intro fs path
    unfold validateBackup validateParsed
    repeat' split
    all_goals simp [validationErrorResult, List.isEmpty_iff]
  · rfl

/-! ### C10: the checksum check requires a checksum entry -/

/-- C10: the validator compares checksums for a table only when
`metadata.checksums` exists and has an entry for that table — with the
mapping absent, or with no entry for the table, the checksum check
contributes no issue, and a snapshot without checksums can validate as
`valid = true`. -/
theorem c10_checksum_needs_entry :
    (∀ (md : RawMetadata) (t : String) (rows : List Row),
      md.checksums = none → checksumIssues md t rows = []) ∧
    (∀ (md : RawMetadata) (cs : List (String × String)) (t : String)
        (rows : List Row),
      md.checksums = some cs → lookupA cs t = none →
        checksumIssues md t rows = []) ∧
    validateParsed rawNoCs = (true, []) := by
  refine ⟨?_, ?_, by rfl⟩
  · intro md t rows h
    unfold checksumIssues
    rw [h]
  · intro md cs t rows h h2
    unfold checksumIssues
    rw [h]
    simp [h2]

/-- C10 (witness): the checksum-free metadata fixture triggers both skip
paths and its snapshot validates cleanly. -/
theorem c10_checksum_needs_entry_witness :
    checksumIssues mdNoCs "zzz" [] = [] ∧
    checksumIssues mdMulti "t9" [] = [] ∧
    validateParsed rawNoCs = (true, []) :=
  ⟨c10_checksum_needs_entry.1 mdNoCs "zzz" [] rfl,
   c10_checksum_needs_entry.2.1 mdMulti [("t2", "bogus")] "t9" [] rfl (by decide),
   c10_checksum_needs_entry.2.2⟩

/-! ### File-store lemmas shared by the build/restore claims -/

theorem readFile_writeFile_self (fs : FS) (p : String) (d : FileData) :
    readFile (writeFile fs p d) p = some d := by
  unfold readFile writeFile
  induction fs with
  | nil => simp [assocSet, lookupA]
  | cons e rest ih =>
      obtain ⟨k, v⟩ := e
      by_cases he : k = p
      · subst he; simp [assocSet, lookupA]
      · simp [assocSet, lookupA, he, ih]

theorem cleanupOldBackups_noop (cfg : Config) (fs : FS) (uf : String → Bool)
    (h : (listAvailableBackups cfg fs).length ≤ cfg.maxBackupCount) :
    cleanupOldBackups cfg fs uf = fs := by
  have h' : ¬ (listAvailableBackups cfg fs).length > cfg.maxBackupCount :=
    not_lt.mpr h
  unfold cleanupOldBackups
  simp [h']

/-! ### C2: build/validate round-trip -/

/-- C2: when every table export succeeds, validating the snapshot file just
written by the full-backup builder reports `valid = true` with no issues;
and the same round-trip holds for the snapshot document built over any
nonempty table set (the configured sets are nonempty, and validation demands
a nonempty table list and truthy version, as the shipped `1.0` is).  The
room hypothesis keeps the retention pass from deleting the fresh file. -/
theorem c2_roundtrip (cfg : Config) (env : Env) (db : DB) (fs : FS) (now : Nat)
    (desc : Option String) (uf : String → Bool)
    (hver : cfg.version ≠ "")
    (hok : ∀ t ∈ BACKUP_TABLES, env.exportOk t = true)
    (hroom : (listAvailableBackups cfg (writeFile fs (fullBackupPath cfg now)
        (FileData.json (backupSnapshot BACKUP_TABLES cfg env db now desc)))).length
        ≤ cfg.maxBackupCount) :
    validateBackup (createFullBackup cfg env db fs now desc uf).2
        (createFullBackup cfg env db fs now desc uf).1 = (true, []) ∧
    ∀ tables : List String, tables ≠ [] →
      (∀ t ∈ tables, env.exportOk t = true) →
      validateParsed (backupSnapshot tables cfg env db now desc) = (true, []) := by
  constructor
  · unfold createFullBackup
    dsimp only
    rw [cleanupOldBackups_noop cfg _ uf hroom]
    unfold validateBackup
    rw [readFile_writeFile_self]
    exact validateParsed_backupSnapshot BACKUP_TABLES cfg env db now desc
      (by decide) hver hok
  · intro tables hne hok2
    exact validateParsed_backupSnapshot tables cfg env db now desc hne hver hok2

/-- C2 (witness): the round-trip at the default configuration over an empty
directory. -/
theorem c2_roundtrip_witness :
    validateBackup (createFullBackup cfgD envOK dbEmpty [] 5 none noFail).2
        (createFullBackup cfgD envOK dbEmpty [] 5 none noFail).1 = (true, []) :=
  (c2_roundtrip cfgD envOK dbEmpty [] 5 none noFail (by decide) (by decide)
    (by decide)).1

/-! ### C3: the pre-restore safety-net backup -/

/-- C3 (amended): on a readable, parseable snapshot with `metadata` and a
table list present, every restore invocation — whatever the options — takes
a full safety-net backup of the pre-restore live store before any clear or
upsert runs, and records its path in the returned report; the safety-net
file validates as `valid = true` provided every table export succeeded
during the safety-net run (and the directory is within retention capacity).
The counterexample `c3_counterexample` shows the validity part fails when an
export fails during the safety-net backup. -/
theorem c3_safety_net_amended (cfg : Config) (env : Env) (db : DB) (fs : FS)
    (path : String) (opts : RestoreOptions) (now : Nat) (uf : String → Bool)
    (raw : RawBackup) (md : RawMetadata) (tl : List String)
    (hread : readFile fs path = some (FileData.json raw))
    (hmd : raw.metadata = some md) (htl : md.tables = some tl)
    (hver : cfg.version ≠ "")
    (hok : ∀ t ∈ BACKUP_TABLES, env.exportOk t = true)
    (hroom : (listAvailableBackups cfg (writeFile fs (fullBackupPath cfg now)
        (FileData.json (backupSnapshot BACKUP_TABLES cfg env db now
          (some "リストア前の自動バックアップ"))))).length ≤ cfg.maxBackupCount) :
    (∃ n m errs, (restoreFromBackup cfg env db fs path opts now uf).1.details
        = RestoreDetails.report n m errs (fullBackupPath cfg now)) ∧
    readFile (restoreFromBackup cfg env db fs path opts now uf).2.2
        (fullBackupPath cfg now)
      = some (FileData.json (backupSnapshot BACKUP_TABLES cfg env db now
          (some "リストア前の自動バックアップ"))) ∧
    validateBackup (restoreFromBackup cfg env db fs path opts now uf).2.2
        (fullBackupPath cfg now) = (true, []) := by
  have hcf : createFullBackup cfg env db fs now
      (some "リストア前の自動バックアップ") uf
      = (fullBackupPath cfg now,
         writeFile fs (fullBackupPath cfg now)
           (FileData.json (backupSnapshot BACKUP_TABLES cfg env db now
             (some "リストア前の自動バックアップ")))) := by
    unfold createFullBackup
    dsimp only
    rw [cleanupOldBackups_noop cfg _ uf hroom]
  unfold restoreFromBackup restoreAttempt
  simp only [hread, hmd, hcf, htl]
  refine ⟨⟨_, _, _, rfl⟩, readFile_writeFile_self fs _ _, ?_⟩
  unfold validateBackup
  rw [readFile_writeFile_self]
  exact validateParsed_backupSnapshot BACKUP_TABLES cfg env db now
    (some "リストア前の自動バックアップ") (by decide) hver hok

/-- C3 (witness for the amended theorem) on a concrete snapshot, with all
exports succeeding. -/
theorem c3_safety_net_amended_witness :
    (∃ n m errs,
      (restoreFromBackup cfgD envOK dbEmpty fsSnapA "snap.json" {} 5 noFail).1.details
        = RestoreDetails.report n m errs (fullBackupPath cfgD 5)) ∧
    readFile (restoreFromBackup cfgD envOK dbEmpty fsSnapA "snap.json" {} 5 noFail).2.2
        (fullBackupPath cfgD 5)
      = some (FileData.json (backupSnapshot BACKUP_TABLES cfgD envOK dbEmpty 5
          (some "リストア前の自動バックアップ"))) ∧
    validateBackup (restoreFromBackup cfgD envOK dbEmpty fsSnapA "snap.json" {} 5 noFail).2.2
        (fullBackupPath cfgD 5) = (true, []) :=
  c3_safety_net_amended cfgD envOK dbEmpty fsSnapA "snap.json" {} 5 noFail
    rawNoCs mdNoCs ["a"] rfl rfl rfl (by decide) (by decide) (by decide)

/-- C3 (counterexample): an invocation on a readable, parseable snapshot in
which the safety-net backup's export of `conversation_histories` fails: the
safety-net path is still recorded, but the file it points to validates as
`valid = false`, refuting the claim's unconditional validity guarantee. -/
theorem c3_counterexample :
    (∃ n m errs,
      (restoreFromBackup cfgD envC3 dbEmpty fsSnapA "snap.json" {} 5 noFail).1.details
        = RestoreDetails.report n m errs (fullBackupPath cfgD 5)) ∧
    (validateBackup (restoreFromBackup cfgD envC3 dbEmpty fsSnapA "snap.json" {} 5 noFail).2.2
        (fullBackupPath cfgD 5)).1 = false := by
  refine ⟨⟨1, 1, [], by decide⟩, by decide⟩

/-! ### C4: the clear step misses rows with id = 0 -/

/-- C4 (code bug): restoring with `clearBeforeRestore` onto a
`bot_settings` table holding a row with `id = 0` leaves that pre-existing
row in the table — the clear step `delete().neq('id', 0)` only deletes rows
whose id differs from 0, although the source's own comment says it deletes
all rows ("すべての行を削除") and the claim requires every pre-existing row
to be deleted.  No per-table error is recorded: the run reports success. -/
theorem c4_clear_spares_id_zero :
    ((restoreFromBackup cfgD envOK dbC4 fsC4 "snap.json"
        { clearBeforeRestore := true } 9 noFail).2.1) "bot_settings"
      = [⟨0, "stale"⟩, ⟨5, "new"⟩] ∧
    (⟨0, "stale"⟩ : Row) ∈ ((restoreFromBackup cfgD envOK dbC4 fsC4 "snap.json"
        { clearBeforeRestore := true } 9 noFail).2.1) "bot_settings" ∧
    (restoreFromBackup cfgD envOK dbC4 fsC4 "snap.json"
        { clearBeforeRestore := true } 9 noFail).1.success = true := by
  refine ⟨by decide, by decide, by decide⟩

/-! ### C6: the orchestrator returns instead of raising -/

/-- C6 (counterexample): on an unparseable snapshot file the body does throw
internally, but `restoreFromBackup` catches it and returns a normal report
with `success = false` — it does not raise, contrary to the claim. -/
theorem c6_counterexample :
    restoreAttempt cfgD envOK dbEmpty fsJunk "bad.json" {} 3 noFail
      = Except.error ("Unexpected token in JSON", dbEmpty, fsJunk) ∧
    restoreFromBackup cfgD envOK dbEmpty fsJunk "bad.json" {} 3 noFail
      = ({ success := false,
           details := RestoreDetails.fatal "Unexpected token in JSON" },
         dbEmpty, fsJunk) :=
  ⟨rfl, rfl⟩

/-- C6 (amended): the orchestrator never raises at all.  Per-table problems
are recorded in the report while iteration continues, and the wholly
unrecoverable issues (unreadable or unparseable snapshot, missing metadata)
are caught by the outer catch and surfaced as a returned report with
`success = false` and a fatal error detail — callers distinguish the cases
from the report shape, not from an exception. -/
theorem c6_never_raises_amended (cfg : Config) (env : Env) (db : DB) (fs : FS)
    (path : String) (opts : RestoreOptions) (now : Nat) (uf : String → Bool) :
    (∀ e db' fs', restoreAttempt cfg env db fs path opts now uf
        = Except.error (e, db', fs') →
      restoreFromBackup cfg env db fs path opts now uf
        = ({ success := false, details := RestoreDetails.fatal e }, db', fs')) ∧
    (∀ raw md tl, readFile fs path = some (FileData.json raw) →
      raw.metadata = some md → md.tables = some tl →
      ∃ res db' fs' n m errs, restoreAttempt cfg env db fs path opts now uf
          = Except.ok (res, db', fs') ∧
        res.details = RestoreDetails.report n m errs (fullBackupPath cfg now)) := by
  constructor
  · intro e db' fs' h
    unfold restoreFromBackup
    rw [h]
  · intro raw md tl hread hmd htl
    unfold restoreAttempt
    simp only [hread, hmd, htl]
    exact ⟨_, _, _, _, _, _, rfl, rfl⟩

/-! ### Upsert algebra (toward C5) -/

theorem rowIds_replace (l : List Row) (r : Row) :
    rowIds (l.map (fun x => if x.id = r.id then r else x)) = rowIds l := by
  induction l with
  | nil => rfl
  | cons x rest ih =>
      unfold rowIds at ih ⊢
      rw [List.map_cons, List.map_cons, List.map_cons]
      by_cases h : x.id = r.id
      · rw [if_pos h, ih, h]
      · rw [if_neg h, ih]

theorem rowIds_upsertOne (l : List Row) (r : Row) :
    rowIds (upsertOne l r)
      = if r.id ∈ rowIds l then rowIds l else rowIds l ++ [r.id] := by
  unfold upsertOne
  by_cases h : r.id ∈ rowIds l
  · rw [if_pos h, if_pos h, rowIds_replace]
  · rw [if_neg h, if_neg h]
    unfold rowIds
    rw [List.map_append]
    rfl

theorem length_upsertOne (l : List Row) (r : Row) :
    (upsertOne l r).length
      = if r.id ∈ rowIds l then l.length else l.length + 1 := by
  unfold upsertOne
  by_cases h : r.id ∈ rowIds l
  · rw [if_pos h, if_pos h, List.length_map]
  · rw [if_neg h, if_neg h, List.length_append]
    rfl

theorem rowIds_upsertRows_mono (rows : List Row) :
    ∀ l : List Row, rowIds l ⊆ rowIds (upsertRows l rows) := by
  induction rows with
  | nil => intro l x hx; exact hx
  | cons r rest ih =>
      intro l x hx
      show x ∈ rowIds (upsertRows (upsertOne l r) rest)
      apply ih (upsertOne l r)
      rw [rowIds_upsertOne]
      by_cases h : r.id ∈ rowIds l
      · rwa [if_pos h]
      · rw [if_neg h]; exact List.mem_append_left _ hx

theorem mem_rowIds_upsertRows (rows : List Row) :
    ∀ (l : List Row) (r : Row), r ∈ rows →
      r.id ∈ rowIds (upsertRows l rows) := by
  induction rows with
  | nil => intro l r h; cases h
  | cons q rest ih =>
      intro l r h
      cases h with
      | head =>
          show q.id ∈ rowIds (upsertRows (upsertOne l q) rest)
          apply rowIds_upsertRows_mono rest (upsertOne l q)
          rw [rowIds_upsertOne]
          by_cases hq : q.id ∈ rowIds l
          · rwa [if_pos hq]
          · rw [if_neg hq]
            exact List.mem_append_right _ (List.mem_singleton.mpr rfl)
      | tail _ h2 => exact ih (upsertOne l q) r h2

theorem upsertRows_stable (rows : List Row) :
    ∀ l : List Row, (∀ r ∈ rows, r.id ∈ rowIds l) →
      rowIds (upsertRows l rows) = rowIds l ∧
      (upsertRows l rows).length = l.length := by
  induction rows with
  | nil => intro l _; exact ⟨rfl, rfl⟩
  | cons q rest ih =>
      intro l h
      have hq : q.id ∈ rowIds l := h q (List.mem_cons_self q rest)
      have hids : rowIds (upsertOne l q) = rowIds l := by
        rw [rowIds_upsertOne, if_pos hq]
      have hlen : (upsertOne l q).length = l.length := by
        rw [length_upsertOne, if_pos hq]
      have hrest := ih (upsertOne l q) (fun r hr => by
        rw [hids]; exact h r (List.mem_cons_of_mem q hr))
      refine ⟨?_, ?_⟩
      · show rowIds (upsertRows (upsertOne l q) rest) = rowIds l
        rw [hrest.1, hids]
      · show (upsertRows (upsertOne l q) rest).length = l.length
        rw [hrest.2, hlen]

theorem applyT_len_of_mem (env : Env)
    (dataSec : Option (List (String × TableVal))) (t : String) (y : List Row)
    (h : ∀ rows, tableAction env dataSec t = some rows →
      ∀ r ∈ rows, r.id ∈ rowIds y) :
    (applyT env dataSec t y).length = y.length := by
  unfold applyT
  cases ha : tableAction env dataSec t with
  | none => rfl
  | some rows => exact (upsertRows_stable rows y (h rows ha)).2

theorem rowIds_applyT_mono (env : Env)
    (dataSec : Option (List (String × TableVal))) (t : String) (y : List Row) :
    rowIds y ⊆ rowIds (applyT env dataSec t y) := by
  unfold applyT
  cases hb : tableAction env dataSec t with
  | none => exact fun x hx => hx
  | some rows2 => exact rowIds_upsertRows_mono rows2 y

theorem applyT_of_action (env : Env)
    (dataSec : Option (List (String × TableVal))) (t : String)
    (rows : List Row) (ha : tableAction env dataSec t = some rows)
    (y : List Row) : applyT env dataSec t y = upsertRows y rows := by
  unfold applyT
  rw [ha]

theorem mem_rowIds_applyT_iterate (env : Env)
    (dataSec : Option (List (String × TableVal))) (t : String)
    (rows : List Row) (ha : tableAction env dataSec t = some rows)
    (l : List Row) (r : Row) (hr : r ∈ rows) :
    ∀ n : Nat, r.id ∈ rowIds ((applyT env dataSec t)^[n + 1] l) := by
  intro n
  induction n with
  | zero =>
      rw [Function.iterate_one, applyT_of_action env dataSec t rows ha l]
      exact mem_rowIds_upsertRows rows l r hr
  | succ j ihj =>
      rw [Function.iterate_succ_apply' (applyT env dataSec t) (j + 1) l]
      exact rowIds_applyT_mono env dataSec t _ ihj

theorem applyT_iterate_stable (env : Env)
    (dataSec : Option (List (String × TableVal))) (t : String)
    (l : List Row) :
    ∀ m : Nat, ((applyT env dataSec t)^[m + 1] l).length
      = (applyT env dataSec t l).length := by
  intro m
  induction m with
  | zero => rw [Function.iterate_one]
  | succ k ihk =>
      rw [Function.iterate_succ_apply' (applyT env dataSec t) (k + 1) l]
      have hstable : (applyT env dataSec t ((applyT env dataSec t)^[k + 1] l)).length
          = ((applyT env dataSec t)^[k + 1] l).length := by
        apply applyT_len_of_mem
        intro rows ha r hr
        exact mem_rowIds_applyT_iterate env dataSec t rows ha l r hr k
      rw [hstable, ihk]

theorem applyT_reapply_len (env : Env)
    (dataSec : Option (List (String × TableVal))) (t : String)
    (x : List Row) (k : Nat) :
    ((applyT env dataSec t)^[k] ((applyT env dataSec t)^[k] x)).length
      = ((applyT env dataSec t)^[k] x).length := by
  cases k with
  | zero => rfl
  | succ m =>
      have h1 := applyT_iterate_stable env dataSec t
        ((applyT env dataSec t)^[m + 1] x) m
      have h2 : (applyT env dataSec t ((applyT env dataSec t)^[m + 1] x)).length
          = ((applyT env dataSec t)^[m + 2] x).length := by
        rw [Function.iterate_succ_apply' (applyT env dataSec t) (m + 1) x]
      have h3 := applyT_iterate_stable env dataSec t x (m + 1)
      have h4 := applyT_iterate_stable env dataSec t x m
      rw [h1, h2, h3, h4]

/-! ### The restore loop's effect on the store (toward C5) -/

theorem restoreTable_db_noclear (env : Env)
    (dataSec : Option (List (String × TableVal))) (opts : RestoreOptions)
    (hop : opts.clearBeforeRestore = false) (acc : RestoreAcc) (t t' : String) :
    (restoreTable env dataSec opts acc t).db t'
      = if t' = t then applyT env dataSec t (acc.db t) else acc.db t' := by
  unfold restoreTable restoreClearThen restoreUpsert applyT tableAction
  cases dataSec with
  | none => by_cases h : t' = t <;> simp [h]
  | some dm =>
      cases hl : lookupA dm t with
      | none => by_cases h : t' = t <;> simp [h, hl]
      | some tv =>
          cases tv with
          | arr rows =>
              cases rows with
              | nil => by_cases h : t' = t <;> simp [h, hl]
              | cons r rest =>
                  cases hu : env.upsertErr t with
                  | some m => by_cases h : t' = t <;> simp [h, hl, hop, hu]
                  | none => by_cases h : t' = t <;> simp [h, hl, hop, hu, dbSet]
          | nonArr s => by_cases h : t' = t <;> simp [h, hl, hop]

theorem foldl_restoreTable_db (env : Env)
    (dataSec : Option (List (String × TableVal))) (opts : RestoreOptions)
    (hop : opts.clearBeforeRestore = false) :
    ∀ (ws : List String) (acc : RestoreAcc) (t : String),
      (ws.foldl (restoreTable env dataSec opts) acc).db t
        = (applyT env dataSec t)^[occCount ws t] (acc.db t) := by
  intro ws
  induction ws with
  | nil => intro acc t; rfl
  | cons w rest ih =>
      intro acc t
      rw [List.foldl_cons, ih]
      by_cases h : w = t
      · subst h
        have hc : occCount (w :: rest) w = occCount rest w + 1 := by
          simp [occCount, List.filter_cons]
        rw [hc, Function.iterate_succ_apply,
            restoreTable_db_noclear env dataSec opts hop acc w w, if_pos rfl]
      · have hc : occCount (w :: rest) t = occCount rest t := by
          simp [occCount, List.filter_cons, h]
        have h' : ¬ t = w := fun hh => h hh.symm
        rw [hc, restoreTable_db_noclear env dataSec opts hop acc w t, if_neg h']

/-! ### Read-preservation through write and cleanup (toward C5) -/

theorem readFile_writeFile_other (fs : FS) (p q : String) (d : FileData)
    (h : p ≠ q) : readFile (writeFile fs q d) p = readFile fs p := by
  have hq : q ≠ p := fun hh => h hh.symm
  unfold readFile writeFile
  induction fs with
  | nil => simp [assocSet, lookupA, hq]
  | cons e rest ih =>
      obtain ⟨k, v⟩ := e
      by_cases hk : k = q
      · subst hk; simp [assocSet, lookupA, hq]
      · simp [assocSet, lookupA, hk, ih]

theorem readFile_fsRemove (fs : FS) (p q : String) :
    readFile (fsRemove fs q) p = if p = q then none else readFile fs p := by
  unfold readFile fsRemove
  induction fs with
  | nil => by_cases h : p = q <;> simp [lookupA, h]
  | cons e rest ih =>
      obtain ⟨k, v⟩ := e
      rw [List.filter_cons]
      by_cases hk : k = q
      · rw [if_neg (by simp [hk])]
        rw [ih]
        by_cases hp : p = q
        · rw [if_pos hp, if_pos hp]
        · rw [if_neg hp, if_neg hp]
          have hkp : ¬ k = p := fun hh => hp (hh ▸ hk)
          simp [lookupA, hkp]
      · rw [if_pos (by simp [hk])]
        by_cases hkp : k = p
        · have hp : ¬ p = q := fun hh => hk (by rw [hkp, hh])
          simp [lookupA, hkp, hp]
        · simp only [lookupA, if_neg hkp]
          exact ih

theorem readFile_removeFold (uf : String → Bool) (del : List BackupEntry) :
    ∀ (fs : FS) (p : String),
      readFile (del.foldl
          (fun acc b => if uf b.path then acc else fsRemove acc b.path) fs) p
        = readFile fs p
      ∨ readFile (del.foldl
          (fun acc b => if uf b.path then acc else fsRemove acc b.path) fs) p
        = none := by
  induction del with
  | nil => intro fs p; exact Or.inl rfl
  | cons b rest ih =>
      intro fs p
      rw [List.foldl_cons]
      have hstep : readFile (if uf b.path then fs else fsRemove fs b.path) p
            = readFile fs p
          ∨ readFile (if uf b.path then fs else fsRemove fs b.path) p = none := by
        by_cases hu : uf b.path
        · rw [if_pos hu]; exact Or.inl rfl
        · rw [if_neg hu, readFile_fsRemove]
          by_cases hp : p = b.path
          · rw [if_pos hp]; exact Or.inr rfl
          · rw [if_neg hp]; exact Or.inl rfl
      rcases ih (if uf b.path then fs else fsRemove fs b.path) p with h | h
      · rw [h]; exact hstep
      · rw [h]; exact Or.inr rfl

theorem cleanupOldBackups_pres (cfg : Config) (fs : FS) (uf : String → Bool)
    (p : String) :
    readFile (cleanupOldBackups cfg fs uf) p = readFile fs p
    ∨ readFile (cleanupOldBackups cfg fs uf) p = none := by
  unfold cleanupOldBackups
  dsimp only
  by_cases h : (listAvailableBackups cfg fs).length > cfg.maxBackupCount
  · rw [if_pos h]
    exact readFile_removeFold uf _ fs p
  · rw [if_neg h]
    exact Or.inl rfl

theorem createFullBackup_pres (cfg : Config) (env : Env) (db : DB) (fs : FS)
    (now : Nat) (desc : Option String) (uf : String → Bool) (p : String)
    (hp : p ≠ fullBackupPath cfg now) :
    readFile (createFullBackup cfg env db fs now desc uf).2 p = readFile fs p
    ∨ readFile (createFullBackup cfg env db fs now desc uf).2 p = none := by
  unfold createFullBackup
  dsimp only
  rcases cleanupOldBackups_pres cfg
      (writeFile fs (fullBackupPath cfg now)
        (FileData.json (backupSnapshot BACKUP_TABLES cfg env db now desc))) uf p
    with h | h
  · rw [h, readFile_writeFile_other fs p _ _ hp]
    exact Or.inl rfl
  · rw [h]; exact Or.inr rfl

/-! ### Run-shape lemmas for the restore orchestrator (toward C5) -/

/-- On a readable, parseable, structurally sound snapshot the attempt
succeeds, with the store evolved by the table loop and the file store by the
safety-net backup. -/
theorem restoreFromBackup_good (cfg : Config) (env : Env) (db : DB) (fs : FS)
    (path : String) (opts : RestoreOptions) (now : Nat) (uf : String → Bool)
    (raw : RawBackup) (md : RawMetadata) (tl : List String)
    (hread : readFile fs path = some (FileData.json raw))
    (hmd : raw.metadata = some md) (htl : md.tables = some tl) :
    restoreFromBackup cfg env db fs path opts now uf
      = ({ success :=
             decide (0 < ((restoreWorklist tl opts).foldl
               (restoreTable env raw.data opts) ⟨0, 0, [], db⟩).tablesRestored)
             && ((restoreWorklist tl opts).foldl
               (restoreTable env raw.data opts) ⟨0, 0, [], db⟩).errors.isEmpty,
           details := RestoreDetails.report
             ((restoreWorklist tl opts).foldl
               (restoreTable env raw.data opts) ⟨0, 0, [], db⟩).tablesRestored
             ((restoreWorklist tl opts).foldl
               (restoreTable env raw.data opts) ⟨0, 0, [], db⟩).recordsRestored
             ((restoreWorklist tl opts).foldl
               (restoreTable env raw.data opts) ⟨0, 0, [], db⟩).errors
             (fullBackupPath cfg now) },
         ((restoreWorklist tl opts).foldl
           (restoreTable env raw.data opts) ⟨0, 0, [], db⟩).db,
         (createFullBackup cfg env db fs now
           (some "リストア前の自動バックアップ") uf).2) := by
  unfold restoreFromBackup restoreAttempt
  simp only [hread, hmd, htl]

/-- Without a readable, parseable, structurally sound snapshot the run
leaves the store untouched. -/
theorem restoreFromBackup_bad_db (cfg : Config) (env : Env) (db : DB) (fs : FS)
    (path : String) (opts : RestoreOptions) (now : Nat) (uf : String → Bool)
    (hbad : ∀ raw md tl, readFile fs path = some (FileData.json raw) →
      raw.metadata = some md → md.tables = some tl → False) :
    (restoreFromBackup cfg env db fs path opts now uf).2.1 = db := by
  unfold restoreFromBackup restoreAttempt
  cases hr : readFile fs path with
  | none => rfl
  | some fd =>
      cases fd with
      | junk s => rfl
      | json raw =>
          dsimp only
          cases hm : raw.metadata with
          | none => rfl
          | some md =>
              dsimp only
              cases ht : md.tables with
              | none => rfl
              | some tl => exact absurd (hbad raw md tl hr hm ht) (fun h => h)

/-- Without a readable, parseable, structurally sound snapshot the run's
final file store still reads the snapshot path as before, or as deleted. -/
theorem restoreFromBackup_bad_fs (cfg : Config) (env : Env) (db : DB) (fs : FS)
    (path : String) (opts : RestoreOptions) (now : Nat) (uf : String → Bool)
    (hpath : path ≠ fullBackupPath cfg now)
    (hbad : ∀ raw md tl, readFile fs path = some (FileData.json raw) →
      raw.metadata = some md → md.tables = some tl → False) :
    readFile (restoreFromBackup cfg env db fs path opts now uf).2.2 path
        = readFile fs path
      ∨ readFile (restoreFromBackup cfg env db fs path opts now uf).2.2 path
        = none := by
  unfold restoreFromBackup restoreAttempt
  cases hr : readFile fs path with
  | none => exact Or.inr hr
  | some fd =>
      cases fd with
      | junk s => exact Or.inl hr
      | json raw =>
          dsimp only
          cases hm : raw.metadata with
          | none => exact Or.inl hr
          | some md =>
              dsimp only
              cases ht : md.tables with
              | none =>
                  rcases createFullBackup_pres cfg env db fs now
                      (some "リストア前の自動バックアップ") uf path hpath with h | h
                  · exact Or.inl (h.trans hr)
                  · exact Or.inr h
              | some tl => exact absurd (hbad raw md tl hr hm ht) (fun h => h)

/-! ### C5: restore idempotence (row counts) -/

/-- C5: with `clearBeforeRestore` unset, running `restoreFromBackup` twice in
succession on the same snapshot path yields the same final per-table row
counts as running it once: the second run upserts the same batches keyed by
`id`, overwriting rows instead of duplicating them (and if the retention
pass of the first run's safety-net backup removed the snapshot, the second
run changes nothing at all).  The path is assumed distinct from the first
run's safety-net file, so the second run reads the same snapshot. -/
theorem c5_restore_idempotent_counts (cfg : Config) (env : Env) (db : DB)
    (fs : FS) (path : String) (opts : RestoreOptions) (now1 now2 : Nat)
    (uf : String → Bool)
    (hop : opts.clearBeforeRestore = false)
    (hpath : path ≠ fullBackupPath cfg now1) :
    ∀ t, (((restoreFromBackup cfg env
          (restoreFromBackup cfg env db fs path opts now1 uf).2.1
          (restoreFromBackup cfg env db fs path opts now1 uf).2.2
          path opts now2 uf).2.1) t).length
        = (((restoreFromBackup cfg env db fs path opts now1 uf).2.1) t).length := by
  intro t
  by_cases hgood : ∃ raw md tl,
      readFile fs path = some (FileData.json raw) ∧
      raw.metadata = some md ∧ md.tables = some tl
  · obtain ⟨raw, md, tl, hread, hmd, htl⟩ := hgood
    have h1 := restoreFromBackup_good cfg env db fs path opts now1 uf raw md tl
      hread hmd htl
    rw [h1]
    dsimp only
    have hpres := createFullBackup_pres cfg env db fs now1
      (some "リストア前の自動バックアップ") uf path hpath
    set db1 := ((restoreWorklist tl opts).foldl
      (restoreTable env raw.data opts) ⟨0, 0, [], db⟩).db with hdb1
    rcases hpres with hp | hp
    · have h2 := restoreFromBackup_good cfg env db1
        (createFullBackup cfg env db fs now1
          (some "リストア前の自動バックアップ") uf).2 path opts now2 uf raw md tl
        (by rw [hp, hread]) hmd htl
      rw [h2]
      dsimp only
      rw [foldl_restoreTable_db env raw.data opts hop (restoreWorklist tl opts)
          ⟨0, 0, [], db1⟩ t]
      rw [hdb1, foldl_restoreTable_db env raw.data opts hop
          (restoreWorklist tl opts) ⟨0, 0, [], db⟩ t]
      exact applyT_reapply_len env raw.data t (db t)
        (occCount (restoreWorklist tl opts) t)
    · have h2 := restoreFromBackup_bad_db cfg env db1
        (createFullBackup cfg env db fs now1
          (some "リストア前の自動バックアップ") uf).2 path opts now2 uf
        (fun raw' md' tl' hr _ _ => by rw [hp] at hr; cases hr)
      rw [h2]
  · have hbad : ∀ raw md tl, readFile fs path = some (FileData.json raw) →
        raw.metadata = some md → md.tables = some tl → False :=
      fun raw md tl hr hm ht => hgood ⟨raw, md, tl, hr, hm, ht⟩
    have h1 := restoreFromBackup_bad_db cfg env db fs path opts now1 uf hbad
    have hfs := restoreFromBackup_bad_fs cfg env db fs path opts now1 uf
      hpath hbad
    rw [h1]
    rcases hfs with hp | hp
    · have h2 := restoreFromBackup_bad_db cfg env db
        (restoreFromBackup cfg env db fs path opts now1 uf).2.2 path opts now2 uf
        (fun raw md tl hr hm ht => hbad raw md tl (by rw [← hp]; exact hr) hm ht)
      rw [h2]
    · have h2 := restoreFromBackup_bad_db cfg env db
        (restoreFromBackup cfg env db fs path opts now1 uf).2.2 path opts now2 uf
        (fun raw md tl hr _ _ => by rw [hp] at hr; cases hr)
      rw [h2]

/-- C5 (witness): the idempotence fact at a concrete snapshot and store. -/
theorem c5_restore_idempotent_counts_witness :
    (((restoreFromBackup cfgD envOK
        (restoreFromBackup cfgD envOK dbC4 fsC4 "snap.json" {} 7 noFail).2.1
        (restoreFromBackup cfgD envOK dbC4 fsC4 "snap.json" {} 7 noFail).2.2
        "snap.json" {} 8 noFail).2.1) "bot_settings").length
      = (((restoreFromBackup cfgD envOK dbC4 fsC4 "snap.json" {} 7 noFail).2.1)
          "bot_settings").length :=
  c5_restore_idempotent_counts cfgD envOK dbC4 fsC4 "snap.json" {} 7 8 noFail
    rfl (by decide) "bot_settings"

/-! ### Retention lemmas (toward C7 and C8) -/

theorem map_path_filterMap_sublist :
    ∀ l : FS, List.Sublist ((l.filterMap parseEntry).map (fun e => e.path))
      (l.map Prod.fst) := by
  intro l
  induction l with
  | nil => simp
  | cons e rest ih =>
      obtain ⟨p, d⟩ := e
      cases d with
      | json raw =>
          simp only [List.filterMap_cons, parseEntry, List.map_cons]
          exact List.Sublist.cons₂ p ih
      | junk s =>
          simp only [List.filterMap_cons, parseEntry, List.map_cons]
          exact List.Sublist.cons p ih

theorem enumerateBackups_paths_nodup (cfg : Config) (fs : FS)
    (hnodup : (fs.map Prod.fst).Nodup) :
    ((enumerateBackups cfg fs).map (fun e => e.path)).Nodup := by
  have h1 : List.Sublist ((enumerateBackups cfg fs).map (fun e => e.path))
      (fs.map Prod.fst) := by
    have h2 := map_path_filterMap_sublist (backupFilesOf cfg fs)
    have h3 : List.Sublist ((backupFilesOf cfg fs).map Prod.fst)
        (fs.map Prod.fst) :=
      (List.filter_sublist fs).map Prod.fst
    exact h2.trans h3
  exact hnodup.sublist h1

theorem listAvailableBackups_paths_nodup (cfg : Config) (fs : FS)
    (hnodup : (fs.map Prod.fst).Nodup) :
    ((listAvailableBackups cfg fs).map (fun e => e.path)).Nodup := by
  have h4 := enumerateBackups_paths_nodup cfg fs hnodup
  unfold listAvailableBackups
  dsimp only
  by_cases h1 : (enumerateBackups cfg fs).length ≤ 1
  · rw [if_pos h1]; exact h4
  · rw [if_neg h1]
    by_cases h2 : (enumerateBackups cfg fs).all (fun e => e.metadata.isSome)
        = true
    · rw [if_pos h2]
      have h5 := List.perm_insertionSort jsLe (enumerateBackups cfg fs)
      exact (List.Perm.nodup_iff (h5.map (fun e => e.path))).mpr h4
    · rw [if_neg h2]; exact List.nodup_nil

theorem mem_fs_of_mem_enumerate (cfg : Config) (fs : FS) (e : BackupEntry)
    (he : e ∈ enumerateBackups cfg fs) : ∃ d, (e.path, d) ∈ fs := by
  obtain ⟨a, ha, hpe⟩ := List.mem_filterMap.mp he
  obtain ⟨p, d⟩ := a
  cases d with
  | json raw =>
      refine ⟨FileData.json raw, ?_⟩
      have hp : p = e.path := by
        have : parseEntry (p, FileData.json raw)
            = some { path := p, metadata := raw.metadata } := rfl
        rw [this] at hpe
        cases hpe
        rfl
      rw [← hp]
      exact List.mem_of_mem_filter ha
  | junk s =>
      exact absurd hpe (by simp [parseEntry])

theorem lookupA_eq_of_mem {α : Type} :
    ∀ (l : List (String × α)) (k : String) (v : α),
      (k, v) ∈ l → (l.map Prod.fst).Nodup → lookupA l k = some v := by
  intro l
  induction l with
  | nil => intro k v h _; cases h
  | cons e rest ih =>
      intro k v h hn
      obtain ⟨k', v'⟩ := e
      rw [List.map_cons, List.nodup_cons] at hn
      cases h with
      | head => simp [lookupA]
      | tail _ h2 =>
          have hk : ¬ k' = k := by
            intro hh
            apply hn.1
            subst hh
            exact List.mem_map.mpr ⟨(k', v), h2, rfl⟩
          simp [lookupA, hk, ih k v h2 hn.2]

theorem readFile_of_mem_enumerate (cfg : Config) (fs : FS) (e : BackupEntry)
    (hnodup : (fs.map Prod.fst).Nodup)
    (he : e ∈ enumerateBackups cfg fs) : readFile fs e.path ≠ none := by
  obtain ⟨d, hd⟩ := mem_fs_of_mem_enumerate cfg fs e he
  unfold readFile
  rw [lookupA_eq_of_mem fs e.path d hd hnodup]
  exact fun h => Option.noConfusion h

/-- With every entry's time value NaN, every comparison is `+0` and the
stable sort leaves the list exactly as enumerated. -/
theorem insertionSort_jsLe_id :
    ∀ l : List BackupEntry, (∀ e ∈ l, entryTime e = none) →
      List.insertionSort jsLe l = l := by
  intro l
  induction l with
  | nil => intro _; rfl
  | cons b rest ih =>
      intro h
      have hb : entryTime b = none := h b (List.mem_cons_self b rest)
      have hle : ∀ x : BackupEntry, jsLe b x := by
        intro x
        unfold jsLe jsCmp
        rw [hb]
      rw [show List.insertionSort jsLe (b :: rest)
          = List.orderedInsert jsLe b (List.insertionSort jsLe rest) from rfl]
      rw [ih (fun e he => h e (List.mem_cons_of_mem b he))]
      cases rest with
      | nil => rfl
      | cons x xs =>
          show List.orderedInsert jsLe b (x :: xs) = b :: x :: xs
          unfold List.orderedInsert
          rw [if_pos (hle x)]

/-- On a directory whose parsed snapshots all carry a `metadata` section and
only unparseable timestamps — as every snapshot this program writes does —
the sort of `listAvailableBackups` is a no-op: the listing stays in
enumeration (readdir) order. -/
theorem listAvailableBackups_eq_enum (cfg : Config) (fs : FS)
    (hmeta : ∀ e ∈ enumerateBackups cfg fs, e.metadata.isSome = true)
    (hnan : ∀ e ∈ enumerateBackups cfg fs, entryTime e = none) :
    listAvailableBackups cfg fs = enumerateBackups cfg fs := by
  unfold listAvailableBackups
  dsimp only
  by_cases h1 : (enumerateBackups cfg fs).length ≤ 1
  · rw [if_pos h1]
  · rw [if_neg h1, if_pos (List.all_eq_true.mpr hmeta)]
    exact insertionSort_jsLe_id _ hnan

theorem readFile_removeFold_none (uf : String → Bool) :
    ∀ (del : List BackupEntry) (fs : FS) (p : String),
      readFile fs p = none →
      readFile (del.foldl
        (fun acc b => if uf b.path then acc else fsRemove acc b.path) fs) p
        = none := by
  intro del
  induction del with
  | nil => intro fs p h; exact h
  | cons b rest ih =>
      intro fs p h
      rw [List.foldl_cons]
      apply ih
      by_cases hu : uf b.path
      · rw [if_pos hu]; exact h
      · rw [if_neg hu, readFile_fsRemove]
        by_cases hp : p = b.path
        · rw [if_pos hp]
        · rw [if_neg hp]; exact h

theorem readFile_removeFold_hit (uf : String → Bool) :
    ∀ (del : List BackupEntry) (fs : FS) (p : String),
      (∃ b ∈ del, uf b.path = false ∧ b.path = p) →
      readFile (del.foldl
        (fun acc b => if uf b.path then acc else fsRemove acc b.path) fs) p
        = none := by
  intro del
  induction del with
  | nil => intro fs p h; obtain ⟨b, hb, _⟩ := h; cases hb
  | cons b rest ih =>
      intro fs p h
      obtain ⟨b', hb', hb'uf, hb'p⟩ := h
      rw [List.foldl_cons]
      rcases List.mem_cons.mp hb' with hbb | hbr
      · subst hbb
        rw [hb'uf]
        simp only [Bool.false_eq_true, if_false]
        apply readFile_removeFold_none
        rw [readFile_fsRemove, hb'p, if_pos rfl]
      · exact ih _ p ⟨b', hbr, hb'uf, hb'p⟩

theorem readFile_removeFold_miss (uf : String → Bool) :
    ∀ (del : List BackupEntry) (fs : FS) (p : String),
      (∀ b ∈ del, uf b.path = true ∨ b.path ≠ p) →
      readFile (del.foldl
        (fun acc b => if uf b.path then acc else fsRemove acc b.path) fs) p
        = readFile fs p := by
  intro del
  induction del with
  | nil => intro fs p _; rfl
  | cons b rest ih =>
      intro fs p h
      rw [List.foldl_cons,
          ih _ p (fun b' hb' => h b' (List.mem_cons_of_mem b hb'))]
      rcases h b (List.mem_cons_self b rest) with hu | hp
      · rw [if_pos hu]
      · by_cases hu : uf b.path
        · rw [if_pos hu]
        · rw [if_neg hu, readFile_fsRemove, if_neg (fun hh => hp hh.symm)]

/-- Master characterization of the retention pass on an over-full directory:
a listed snapshot survives, with unchanged content, exactly when it sits
among the first `maxBackupCount` positions of the listing or its own unlink
fails; every listed snapshot beyond that position whose unlink succeeds is
deleted, and an unlink failure on one file does not protect any other
file. -/
theorem cleanup_positional (cfg : Config) (fs : FS) (uf : String → Bool)
    (hnodup : (fs.map Prod.fst).Nodup)
    (hover : (listAvailableBackups cfg fs).length > cfg.maxBackupCount) :
    ∀ e ∈ listAvailableBackups cfg fs,
      ((e ∈ (listAvailableBackups cfg fs).take cfg.maxBackupCount
          ∨ uf e.path = true) →
        readFile (cleanupOldBackups cfg fs uf) e.path = readFile fs e.path) ∧
      (e ∈ (listAvailableBackups cfg fs).drop cfg.maxBackupCount →
        uf e.path = false →
        readFile (cleanupOldBackups cfg fs uf) e.path = none) := by
  intro e he
  have hpaths := listAvailableBackups_paths_nodup cfg fs hnodup
  have hbsnodup : (listAvailableBackups cfg fs).Nodup := hpaths.of_map
  have hcleanup : cleanupOldBackups cfg fs uf
      = ((listAvailableBackups cfg fs).drop cfg.maxBackupCount).foldl
          (fun acc b => if uf b.path then acc else fsRemove acc b.path) fs := by
    unfold cleanupOldBackups
    dsimp only
    rw [if_pos hover]
  constructor
  · intro hkeep
    rw [hcleanup]
    apply readFile_removeFold_miss
    intro b hb
    rcases hkeep with htake | hu
    · right
      intro hpe
      have hbe : b = e := List.inj_on_of_nodup_map hpaths
        (List.drop_subset _ _ hb) he hpe
      subst hbe
      have hnd : ((listAvailableBackups cfg fs).take cfg.maxBackupCount
          ++ (listAvailableBackups cfg fs).drop cfg.maxBackupCount).Nodup := by
        rw [List.take_append_drop]
        exact hbsnodup
      exact ((List.nodup_append.mp hnd).2.2) htake hb
    · by_cases hpe : b.path = e.path
      · left; rw [hpe]; exact hu
      · right; exact hpe
  · intro hdrop hu
    rw [hcleanup]
    exact readFile_removeFold_hit uf _ fs e.path ⟨e, hdrop, hu, rfl⟩

/-! ### C7: retention prunes by listing position, not by timestamp -/

/-- C7 (counterexample): with `maxCount = 3` and five full snapshots whose
directory listing order is T3, T1, T5, T2, T4, the retention pass deletes
T2 and T4 and keeps T1 — not "exactly the 2 oldest" (T1, T2) as the claim
asserts.  The written timestamps (`toISOString()` with colons replaced by
dashes) do not parse as dates, so every comparator call yields NaN, which
the sort coerces to `+0`: the stable sort never reorders anything and the
pass deletes by readdir position instead of by timestamp recency. -/
theorem c7_counterexample :
    readFile (cleanupOldBackups cfg3 fs5 noFail) "backups/backup_T4.json"
      = none ∧
    readFile (cleanupOldBackups cfg3 fs5 noFail) "backups/backup_T1.json"
      = some (FileData.json { metadata := some (mdTs "T1"), data := some [] }) := by
  refine ⟨by decide, by decide⟩

/-- C7 (amended): on a backup directory of full snapshots, all carrying a
`metadata` section and only unparseable embedded timestamps — which every
snapshot this program writes has, since its timestamps replace the colons
that the date parser requires — the sort of `listAvailableBackups` is a
no-op, and when the listing exceeds `maxBackupCount` the retention pass
deletes exactly the entries beyond position `maxBackupCount` of the listing
(directory order, not timestamp order): an entry survives, with unchanged
content, iff it sits in the first `maxBackupCount` positions or its own
unlink fails, so a deletion failure on one file still does not abort
deletion of the remaining files. -/
theorem c7_retention_by_position (cfg : Config) (fs : FS) (uf : String → Bool)
    (hnodup : (fs.map Prod.fst).Nodup)
    (hfull : ∀ pr ∈ fs, isFullSnapName cfg pr.1 = true)
    (hmeta : ∀ e ∈ enumerateBackups cfg fs, e.metadata.isSome = true)
    (hnan : ∀ e ∈ enumerateBackups cfg fs, entryTime e = none)
    (hover : (enumerateBackups cfg fs).length > cfg.maxBackupCount) :
    listAvailableBackups cfg fs = enumerateBackups cfg fs ∧
    ∀ e ∈ enumerateBackups cfg fs,
      ((e ∈ (enumerateBackups cfg fs).take cfg.maxBackupCount
          ∨ uf e.path = true) →
        readFile (cleanupOldBackups cfg fs uf) e.path = readFile fs e.path) ∧
      (e ∈ (enumerateBackups cfg fs).drop cfg.maxBackupCount →
        uf e.path = false →
        readFile (cleanupOldBackups cfg fs uf) e.path = none) := by
  have heq := listAvailableBackups_eq_enum cfg fs hmeta hnan
  refine ⟨heq, ?_⟩
  have hover' : (listAvailableBackups cfg fs).length > cfg.maxBackupCount := by
    rw [heq]; exact hover
  have h := cleanup_positional cfg fs uf hnodup hover'
  rw [heq] at h
  exact h

/-- C7 (witness for the amended theorem) at the five-snapshot directory:
the sort is a no-op, the entries at positions 0-2 (T3, T1, T5) survive and
the entries at positions 3-4 (T2, T4) are deleted — shown for T1 (kept,
despite being oldest) and T4 (deleted, despite being second newest). -/
theorem c7_retention_by_position_witness :
    listAvailableBackups cfg3 fs5 = enumerateBackups cfg3 fs5 ∧
    readFile (cleanupOldBackups cfg3 fs5 noFail) "backups/backup_T1.json"
      = readFile fs5 "backups/backup_T1.json" ∧
    readFile (cleanupOldBackups cfg3 fs5 noFail) "backups/backup_T4.json"
      = none :=
  ⟨(c7_retention_by_position cfg3 fs5 noFail (by decide) (by decide)
      (by decide) (by decide) (by decide)).1,
   ((c7_retention_by_position cfg3 fs5 noFail (by decide) (by decide)
      (by decide) (by decide) (by decide)).2
      ⟨"backups/backup_T1.json", some (mdTs "T1")⟩ (by decide)).1
      (Or.inl (by decide)),
   ((c7_retention_by_position cfg3 fs5 noFail (by decide) (by decide)
      (by decide) (by decide) (by decide)).2
      ⟨"backups/backup_T4.json", some (mdTs "T4")⟩ (by decide)).2
      (by decide) rfl⟩

/-! ### C8: critical snapshots are not exempt from retention -/

/-- C8 (counterexample): with a retention window of 1, a directory listing a
full snapshot first and a critical snapshot second has the critical snapshot
deleted by the retention cleanup — `listAvailableBackups` lists every
parseable `.json` file, with no exemption for the `critical_backup_`
naming. -/
theorem c8_counterexample :
    isCriticalSnapName cfg1 "backups/critical_backup_T1.json" = true ∧
    readFile fsC8 "backups/critical_backup_T1.json"
      = some (FileData.json { metadata := some (mdTs "T1"), data := some [] }) ∧
    readFile (cleanupOldBackups cfg1 fsC8 noFail)
        "backups/critical_backup_T1.json" = none := by
  refine ⟨by decide, by decide, by decide⟩

/-- C8 (amended): the retention cleanup treats critical snapshots exactly
like full ones: on a directory of program-written snapshots (metadata
present, timestamps unparseable, so the listing keeps directory order), a
listed snapshot whose path carries the critical naming is deleted whenever
it falls beyond position `maxBackupCount` of the listing and its unlink
does not fail, whatever the retention limit. -/
theorem c8_retention_includes_critical (cfg : Config) (fs : FS)
    (uf : String → Bool)
    (hnodup : (fs.map Prod.fst).Nodup)
    (hmeta : ∀ e ∈ enumerateBackups cfg fs, e.metadata.isSome = true)
    (hnan : ∀ e ∈ enumerateBackups cfg fs, entryTime e = none)
    (hover : (enumerateBackups cfg fs).length > cfg.maxBackupCount) :
    ∀ e ∈ enumerateBackups cfg fs,
      isCriticalSnapName cfg e.path = true →
      e ∈ (enumerateBackups cfg fs).drop cfg.maxBackupCount →
      uf e.path = false →
      readFile (cleanupOldBackups cfg fs uf) e.path = none := by
  intro e he _ hdrop hu
  have heq := listAvailableBackups_eq_enum cfg fs hmeta hnan
  have hover' : (listAvailableBackups cfg fs).length > cfg.maxBackupCount := by
    rw [heq]; exact hover
  have h := cleanup_positional cfg fs uf hnodup hover' e (by rw [heq]; exact he)
  rw [heq] at h
  exact h.2 hdrop hu

/-- C8 (witness for the amended theorem): the critical snapshot of `fsC8`
sits beyond position 1 of the listing and is deleted. -/
theorem c8_retention_includes_critical_witness :
    readFile (cleanupOldBackups cfg1 fsC8 noFail)
        "backups/critical_backup_T1.json" = none :=
  c8_retention_includes_critical cfg1 fsC8 noFail (by decide) (by decide)
    (by decide) (by decide) ⟨"backups/critical_backup_T1.json", some (mdTs "T1")⟩
    (by decide) (by decide) (by decide) rfl

/-- C6 (witness): the amended theorem applied to the unparseable-file
directory and to a well-formed snapshot. -/
theorem c6_never_raises_amended_witness :
    restoreFromBackup cfgD envOK dbEmpty fsJunk "bad.json" {} 3 noFail
      = ({ success := false,
           details := RestoreDetails.fatal "Unexpected token in JSON" },
         dbEmpty, fsJunk) ∧
    (∃ res db' fs' n m errs,
      restoreAttempt cfgD envOK dbEmpty fsSnapA "snap.json" {} 3 noFail
        = Except.ok (res, db', fs') ∧
      res.details = RestoreDetails.report n m errs (fullBackupPath cfgD 3)) :=
  ⟨(c6_never_raises_amended cfgD envOK dbEmpty fsJunk "bad.json" {} 3 noFail).1
      _ _ _ rfl,
   (c6_never_raises_amended cfgD envOK dbEmpty fsSnapA "snap.json" {} 3 noFail).2
      rawNoCs mdNoCs ["a"] rfl rfl rfl⟩

end BackupModel
